import Mathlib

/-!
Verification of the NYC housing/capital-projects reconciliation pipeline.

The JavaScript source is embedded shallowly:

* IEEE-754 numbers are modelled as exact rationals (`ℚ`); where a raw field
  can hold the result of `parseFloat` (which may be `NaN` or `±Infinity`),
  the type `JSNum` records those possibilities explicitly.
* 32-bit integer arithmetic (the FNV-style rolling hash) is modelled on `Nat`
  with explicit `% 2^32` reductions; JavaScript's `^`, `<<` and the float
  additions between `ToInt32` coercions all agree with arithmetic mod `2^32`.
* Fallible or exception-throwing collaborators (the database in
  `detectDataChanges`) are modelled with `Except`; the function's `try/catch`
  becomes an explicit `match`.
* Template-literal number rendering (`${year}`) is modelled by `natRepr`,
  a decimal printer for `Nat`.
* JavaScript truthiness on strings (`!s` is true for `null`/`""`) is made
  explicit at each use site.
-/

/-- Digit-accumulating core of the decimal printer, structurally recursive on
a fuel argument so that concrete instances reduce in the kernel; `fuel = n+1`
always suffices. -/
def natDigitsGo : Nat → Nat → List Char → List Char
  | 0, _, acc => acc
  | fuel + 1, n, acc =>
    if n < 10 then Char.ofNat (48 + n % 10) :: acc
    else natDigitsGo fuel (n / 10) (Char.ofNat (48 + n % 10) :: acc)

/-- JavaScript decimal rendering of a natural number, as produced by a
template literal such as `` `${bbl}-${year}` ``. -/
def natDigits (n : Nat) : List Char := natDigitsGo (n + 1) n []

/-- String form of `natDigits`. -/
def natRepr (n : Nat) : String := String.mk (natDigits n)

/-!
## Normalizer (`normalizeBBL`, source part_000 lines 275-286)
-/

/-- Normalize a BBL (borough-block-lot parcel code) to the standard 10-digit
format.  The input is the raw field after JavaScript `String(...)` conversion;
`none` stands for `null`/`undefined`, and the empty string is JS-falsy and
also yields `null`. -/
def normalizeBBL : Option String → Option String
  | none => none
  | some bbl =>
    if bbl = "" then none
    else
      let numeric := String.mk (bbl.toList.filter Char.isDigit)
      if numeric.length = 10 then some numeric
      else if numeric.length = 9 then some ("0" ++ numeric)
      else none

/-!
## Classifier (`getPhysicalBuildingType`, `classifyBuildingType`,
source part_000 lines 292-326)
-/

/-- True when the building-class code is JS-truthy and its first character,
upper-cased, is `D` or `O` (`buildingClass.charAt(0).toUpperCase()`). -/
def classIsMixedUse : Option String → Bool
  | none => false
  | some s =>
    if s.isEmpty then false
    else
      let c := (s.toList.headD 'A').toUpper
      c = 'D' || c = 'O'

/-- Physical/structural building type from unit count and building class. -/
def getPhysicalBuildingType (totalUnits : Int) (buildingClass : Option String) :
    String :=
  if classIsMixedUse buildingClass then "mixed-use"
  else if totalUnits ≥ 50 then "multifamily-elevator"
  else if totalUnits ≥ 10 then "multifamily-walkup"
  else if totalUnits ≥ 3 then "multifamily-walkup"
  else if totalUnits ≤ 2 then "one-two-family"
  else "unknown"

/-- Classify building type from total units, affordable units, job type,
overlay presence and building class. -/
def classifyBuildingType (totalUnits affordableUnits : Int) (jobType : String)
    (hasAffordableOverlay : Bool) (buildingClass : Option String) : String :=
  if hasAffordableOverlay ∧ affordableUnits > 0 then "affordable"
  else if jobType = "Alteration" then "renovation"
  else getPhysicalBuildingType totalUnits buildingClass

/-!
## Data model

`Building` carries every field read or written by the verified components
(the overlay merger, the classifier and the deduplicator) together with
representative pass-through fields; fields of the source record that no
verified component touches (dates, zoning, census geography, …) are omitted
from the embedding.
-/

structure Building where
  jobNumber : String
  jobType : String
  bbl : Option String
  borough : String
  address : String
  longitude : ℚ
  latitude : ℚ
  completionYear : Nat
  totalUnits : Int
  classANet : Int
  unitsCO : Int
  buildingClass : Option String
  buildingType : String
  physicalBuildingType : String
  affordableUnits : Int
  affordablePercentage : ℚ
  extremeLowIncomeUnits : Int
  veryLowIncomeUnits : Int
  lowIncomeUnits : Int
  moderateIncomeUnits : Int
  middleIncomeUnits : Int
  otherIncomeUnits : Int
  studioUnits : Int
  oneBrUnits : Int
  twoBrUnits : Int
  threeBrUnits : Int
  fourBrUnits : Int
  fiveBrUnits : Int
  sixBrUnits : Int
  unknownBrUnits : Int
  dataSource : String
  hasAffordableOverlay : Bool
  housingNyProjectId : Option String
  housingNyProjectName : Option String
  housingNyConstructionType : Option String
  housingNyExtendedAffordabilityOnly : Bool

/-- The per-BBL affordable data kept in the Housing NY overlay map
(`processHousingNY`, source part_000 lines 499-526). -/
structure OverlayData where
  affordableUnits : Int
  affordablePercentage : ℚ
  extremeLowIncomeUnits : Int
  veryLowIncomeUnits : Int
  lowIncomeUnits : Int
  moderateIncomeUnits : Int
  middleIncomeUnits : Int
  otherIncomeUnits : Int
  studioUnits : Int
  oneBrUnits : Int
  twoBrUnits : Int
  threeBrUnits : Int
  fourBrUnits : Int
  fiveBrUnits : Int
  sixBrUnits : Int
  unknownBrUnits : Int
  projectId : Option String
  projectName : Option String
  constructionType : Option String
  extendedAffordabilityOnly : Bool

/-!
## Overlay Merger (`overlayAffordableData`, source part_000 lines 541-599)

The Housing NY map is modelled as a function `String → Option OverlayData`
(the claim quantifies over every overlay mapping).  The source mutates each
building in place and returns the same array; the embedding maps a pure
per-building update over the list.
-/

/-- One iteration of the `overlayAffordableData` loop: skip when the BBL is
JS-falsy (`null` or `""`) or has no entry in the map, otherwise overwrite all
affordability fields wholesale and reclassify with overlay-present = true. -/
def overlayOne (m : String → Option OverlayData) (b : Building) : Building :=
  match b.bbl with
  | none => b
  | some s =>
    if s = "" then b
    else
      match m s with
      | none => b
      | some d =>
        { b with
          affordableUnits := d.affordableUnits
          affordablePercentage := d.affordablePercentage
          extremeLowIncomeUnits := d.extremeLowIncomeUnits
          veryLowIncomeUnits := d.veryLowIncomeUnits
          lowIncomeUnits := d.lowIncomeUnits
          moderateIncomeUnits := d.moderateIncomeUnits
          middleIncomeUnits := d.middleIncomeUnits
          otherIncomeUnits := d.otherIncomeUnits
          studioUnits := d.studioUnits
          oneBrUnits := d.oneBrUnits
          twoBrUnits := d.twoBrUnits
          threeBrUnits := d.threeBrUnits
          fourBrUnits := d.fourBrUnits
          fiveBrUnits := d.fiveBrUnits
          sixBrUnits := d.sixBrUnits
          unknownBrUnits := d.unknownBrUnits
          housingNyProjectId := d.projectId
          housingNyProjectName := d.projectName
          housingNyConstructionType := d.constructionType
          housingNyExtendedAffordabilityOnly := d.extendedAffordabilityOnly
          dataSource := "dcp-affordable"
          hasAffordableOverlay := true
          buildingType :=
            classifyBuildingType b.totalUnits d.affordableUnits b.jobType
              true b.buildingClass }

/-- Overlay Housing NY affordable data onto the DCP buildings. -/
def overlayAffordableData (dcpBuildings : List Building)
    (housingNyMap : String → Option OverlayData) : List Building :=
  dcpBuildings.map (overlayOne housingNyMap)

/-!
## Deduplicator (`deduplicateBuildings`, source part_000 lines 605-686)

Buildings are grouped in a `Map` keyed by the template string
`` `${bbl}-${year}` ``; the map preserves key insertion order and group
members keep input order, which the association-list `pushGroup` reproduces.
-/

/-- The string grouping key `` `${building.bbl}-${building.completionYear}` ``. -/
def dedupKey (bbl : String) (year : Nat) : String :=
  bbl ++ "-" ++ natRepr year

/-- Append a building to its key's group, creating the group at the end of the
association list when the key is new (the `Map.has`/`set`/`get().push` dance). -/
def pushGroup : List (String × List Building) → String → Building →
    List (String × List Building)
  | [], k, b => [(k, [b])]
  | (k', g) :: t, k, b =>
    if k' = k then (k', g ++ [b]) :: t else (k', g) :: pushGroup t k b

/-- The grouping loop: buildings with a JS-falsy BBL go straight to the
pass-through list, the rest are grouped by `dedupKey`. -/
def splitBuildings (buildings : List Building) :
    List Building × List (String × List Building) :=
  buildings.foldl
    (fun acc b =>
      match b.bbl with
      | none => (acc.1 ++ [b], acc.2)
      | some s =>
        if s = "" then (acc.1 ++ [b], acc.2)
        else (acc.1, pushGroup acc.2 (dedupKey s b.completionYear) b))
    ([], [])

/-- The `reduce` callback: prefer higher unit count, then an affordable
overlay, then the greater job number; on a full tie keep the accumulator. -/
def betterOf (best current : Building) : Building :=
  if current.totalUnits > best.totalUnits then current
  else if current.totalUnits < best.totalUnits then best
  else if current.hasAffordableOverlay && !best.hasAffordableOverlay then current
  else if !current.hasAffordableOverlay && best.hasAffordableOverlay then best
  else if best.jobNumber < current.jobNumber then current
  else best

/-- `group.reduce(betterOf)`: the fold starts from the first group member.
Groups built by `splitBuildings` are never empty. -/
def pickBest : List Building → Option Building
  | [] => none
  | h :: t => some (t.foldl betterOf h)

/-- Deduplicate buildings: pass-through records first (in input order), then
one survivor per group in key-insertion order.  A singleton group's survivor
is its only member, which agrees with `pickBest`. -/
def deduplicateBuildings (buildings : List Building) : List Building :=
  let split := splitBuildings buildings
  split.1 ++ split.2.filterMap (fun kg => pickBest kg.2)

/-!
## Geometry Simplifier (`simplifyLine`, source part_001 lines 1164-1199)

Points are exact rational pairs.  The source compares real-valued
perpendicular distances `|num_i| / lineLength` against each other and against
the tolerance; multiplying through by the positive `lineLength` (and squaring,
which is strictly monotone on non-negatives) turns every comparison into a
rational one:

* `dist_i > dist_j  ↔  num_i² > num_j²`;
* `lineLength === 0  ↔  (y₂-y₁)² + (x₂-x₁)² = 0`;
* `maxDist > tolerance  ↔  tolerance < 0 ∨ maxNum² > tolerance² · lineLength²`.

The JavaScript function is recursive with no structural bound (and indeed
diverges for negative tolerances), so the embedding is step-indexed: `fuel`
counts allowed call depth and `none` means the call did not finish within it.
-/

abbrev Point : Type := ℚ × ℚ

/-- Numerator of the perpendicular distance of `p` from the line through
`p₁` and `p₂`: `(y2-y1)*x0 - (x2-x1)*y0 + x2*y1 - y2*x1`. -/
def perpNum (p₁ p₂ p : Point) : ℚ :=
  (p₂.2 - p₁.2) * p.1 - (p₂.1 - p₁.1) * p.2 + p₂.1 * p₁.2 - p₂.2 * p₁.1

/-- The scan of interior points `i = 1 .. length-2` accumulating
`(maxDist², maxIndex)` — scaled by `lineLength²` so it stays rational.  The
accumulator starts at `(0, 0)` and is replaced only on a strict increase,
exactly like the source's `if (dist > maxDist)`. -/
def farthestScan (points : List Point) (p₁ p₂ : Point) : ℚ × Nat :=
  (List.range points.length).foldl
    (fun acc i =>
      if i = 0 ∨ i = points.length - 1 then acc
      else if (perpNum p₁ p₂ (points.getD i (0, 0))) ^ 2 > acc.1 then
        ((perpNum p₁ p₂ (points.getD i (0, 0))) ^ 2, i)
      else acc)
    ((0 : ℚ), (0 : Nat))

/-- Douglas–Peucker simplification of one ring, with explicit call-depth fuel. -/
def simplifyLineF : Nat → List Point → ℚ → Option (List Point)
  | 0, _, _ => none
  | fuel + 1, points, tolerance =>
    if points.length ≤ 2 then some points
    else
      let p₁ := points.headD (0, 0)
      let p₂ := points.getLastD (0, 0)
      let len2 := (p₂.2 - p₁.2) ^ 2 + (p₂.1 - p₁.1) ^ 2
      if len2 = 0 then some [p₁]
      else
        let scan := farthestScan points p₁ p₂
        if tolerance < 0 ∨ scan.1 > tolerance ^ 2 * len2 then
          (simplifyLineF fuel (points.take (scan.2 + 1)) tolerance).bind fun left =>
            (simplifyLineF fuel (points.drop scan.2) tolerance).map fun right =>
              left.dropLast ++ right
        else some [p₁, p₂]

/-!
## Change Detector (`calculateDataHash`, `detectDataChanges`,
source part_001 lines 2026-2151)

A stored record is modelled by its `JSON.stringify` serialization (a
`String`); stringifying a record is then the identity, and the escaping that
`JSON.stringify` applies when that serialization is embedded as a JSON string
value of the summary object is `jsonEscape`.
-/

/-- JSON string escaping as performed by `JSON.stringify` on a string value. -/
def jsonEscapeChar (c : Char) : List Char :=
  if c = '"' then ['\\', '"']
  else if c = '\\' then ['\\', '\\']
  else if c = '\n' then ['\\', 'n']
  else if c = '\r' then ['\\', 'r']
  else if c = '\t' then ['\\', 't']
  else if c = '\x08' then ['\\', 'b']
  else if c = '\x0c' then ['\\', 'f']
  else if c.toNat < 32 then
    '\\' :: 'u' :: '0' :: '0' :: (Nat.toDigits 16 c.toNat).leftpad 2 '0'
  else [c]

/-- Escape a whole string and wrap it in double quotes. -/
def jsonQuote (s : String) : String :=
  "\"" ++ String.mk (s.toList.flatMap jsonEscapeChar) ++ "\""

/-- The middle-sample selection
`records.filter((_, idx) => idx % Math.floor(len / 5) === 0).slice(0, 5)`.
When `len < 5` the stride is `0`; in JavaScript `idx % 0` is `NaN`, which is
never `=== 0`, so no samples are selected. -/
def hashSamples (records : List String) : List String :=
  let stride := records.length / 5
  if stride = 0 then []
  else
    ((List.range records.length).filter (fun i => i % stride = 0)).map
      (fun i => records.getD i "") |>.take 5

/-- `JSON.stringify` of the summary object
`{count, first, last, samples}` (insertion-ordered keys). -/
def summaryString (records : List String) : String :=
  "\x7b\"count\":" ++ natRepr records.length
    ++ ",\"first\":" ++ jsonQuote (records.headD "")
    ++ ",\"last\":" ++ jsonQuote (records.getLastD "")
    ++ ",\"samples\":[" ++ String.intercalate "," ((hashSamples records).map jsonQuote)
    ++ "]\x7d"

/-- UTF-16 code units of a character (`charCodeAt` traverses code units). -/
def utf16Units (c : Char) : List Nat :=
  if c.toNat < 65536 then [c.toNat]
  else [55296 + (c.toNat - 65536) / 1024, 56320 + (c.toNat - 65536) % 1024]

/-- One step of the rolling hash:
`hash ^= code; hash += (hash<<1)+(hash<<4)+(hash<<7)+(hash<<8)+(hash<<24)`.
All JavaScript intermediate values agree with this arithmetic mod `2^32`
(`^` and `<<` act on `ToInt32` bit patterns, and the float additions are
exact below `2^53`); the accumulator is kept reduced into `[0, 2^32)`,
matching the final `hash >>> 0`. -/
def xor32Go : Nat → Nat → Nat → Nat
  | 0, _, _ => 0
  | fuel + 1, a, b =>
    (if a % 2 = b % 2 then 0 else 1) + 2 * xor32Go fuel (a / 2) (b / 2)

/-- Bitwise xor of two 32-bit values (JavaScript `^` after `ToInt32`, read
mod `2^32`), defined structurally over the 32 bit positions so that concrete
instances reduce in the kernel. -/
def xor32 (a b : Nat) : Nat := xor32Go 32 a b

def fnvStep (h code : Nat) : Nat :=
  let h1 := xor32 h code
  (h1 + h1 * 2 % 2 ^ 32 + h1 * 16 % 2 ^ 32 + h1 * 128 % 2 ^ 32
    + h1 * 256 % 2 ^ 32 + h1 * 2 ^ 24 % 2 ^ 32) % 2 ^ 32

/-- The rolling hash of a string, started from the FNV offset basis. -/
def fnvHash (s : String) : Nat :=
  (s.toList.flatMap utf16Units).foldl fnvStep 2166136261

/-- Calculate the change-detection fingerprint of a record set:
`'empty'` for an empty array, otherwise the base-16 rendering of the rolling
hash of the serialized summary object. -/
def calculateDataHash (records : List String) : String :=
  if records.isEmpty then "empty"
  else String.mk (Nat.toDigits 16 (fnvHash (summaryString records)))

/-- The storage collaborator of `detectDataChanges`: the two queries it can
issue, each either returning a value or raising (`Except.error`).  A query's
error is observed only if the control flow actually executes that query. -/
structure ChangeDb where
  countResult : Except String Nat
  sampleResult : Except String (List String)

/-- The verdict record `{ hasChanges, reason }` (the auxiliary `stats`
payload is not modelled). -/
structure ChangeVerdict where
  hasChanges : Bool
  reason : String
  deriving DecidableEq, Repr

/-- Check whether the data changed.  The `try/catch` of the source is the
explicit `Except.error` branches: any raising query yields the fail-open
verdict instead of propagating. -/
def detectDataChanges (db : ChangeDb) (newRecords : List String)
    (hashData : Bool) : ChangeVerdict :=
  match db.countResult with
  | .error _ =>
    { hasChanges := true, reason := "Change detection failed - proceeding with update" }
  | .ok currentCount =>
    let newCount := newRecords.length
    if currentCount ≠ newCount then
      { hasChanges := true
        reason :=
          if currentCount = 0 then "Table is empty - initial seed required"
          else "Record count changed (" ++ natRepr currentCount ++ " → "
            ++ natRepr newCount ++ ")" }
    else if hashData then
      match db.sampleResult with
      | .error _ =>
        { hasChanges := true, reason := "Change detection failed - proceeding with update" }
      | .ok existingRecords =>
        let existingHash := calculateDataHash existingRecords
        let newHash := calculateDataHash (newRecords.take 1000)
        if existingHash ≠ newHash then
          { hasChanges := true, reason := "Data content has changed (hash mismatch)" }
        else { hasChanges := false, reason := "Data is identical to existing records" }
    else { hasChanges := false, reason := "Data is identical to existing records" }

/-!
## Normalizer for DCP housing records (`processDCPHousing`,
source part_000 lines 331-463)

Raw numeric fields are modelled as the value `parseFloat`/`parseInt` returns
on them: `JSNum.nan` for unparseable text, `JSNum.inf`/`JSNum.negInf` for
inputs such as `"Infinity"` or overflowing literals, `JSNum.num q` otherwise.
Fields that the verified components never read are omitted, and `ClassANet` /
`Units_CO` are modelled as finite-or-NaN (`Option ℚ`).
-/

inductive JSNum where
  | nan
  | num (q : ℚ)
  | inf
  | negInf
  deriving DecidableEq, Repr

/-- `isNaN(x)`. -/
def JSNum.isNaN : JSNum → Bool
  | .nan => true
  | _ => false

/-- `x === 0`. -/
def JSNum.isZero : JSNum → Bool
  | .num q => q = 0
  | _ => false

/-- A raw DCP Housing Database record (the fields the function reads). -/
structure DCPRecord where
  Latitude : JSNum
  Longitude : JSNum
  CompltYear : Option Int
  ClassANet : Option ℚ
  Units_CO : Option ℚ
  Job_Number : Option String
  OBJECTID : Nat
  BBL : Option String
  Boro : Option String
  AddressNum : Option String
  AddressSt : Option String
  Job_Type : Option String
  Bldg_Class : Option String

/-- `Math.round` on a finite value: round half toward `+∞`. -/
def jsRound (q : ℚ) : Int := ⌊q + 1 / 2⌋

/-- `x || fallback` for an optional string (JS-falsy: absent or empty). -/
def jsOrStr (s : Option String) (fallback : String) : String :=
  match s with
  | some v => if v = "" then fallback else v
  | none => fallback

/-- The borough-code table `BOROUGH_NAMES`, with the `|| 'Unknown'` fallback. -/
def boroughName (boro : Option String) : String :=
  match boro with
  | some "1" => "Manhattan"
  | some "2" => "Bronx"
  | some "3" => "Brooklyn"
  | some "4" => "Queens"
  | some "5" => "Staten Island"
  | _ => "Unknown"

/-- One iteration of the `processDCPHousing` loop.  `none` is the `continue`
path (the record is skipped and counted); `some` is the constructed building. -/
def processDCPRecord (record : DCPRecord) : Option Building :=
  if record.Latitude.isNaN || record.Longitude.isNaN
      || record.Latitude.isZero || record.Longitude.isZero then none
  else
    match record.CompltYear with
    | none => none
    | some completionYear =>
      if completionYear < 2014 ∨ completionYear > 2025 then none
      else
        let classANet := (record.ClassANet.getD 0 : ℚ)
        let unitsCO := (record.Units_CO.getD 0 : ℚ)
        let totalUnits := jsRound classANet
        if totalUnits ≤ 0 then none
        else
          let jobNumber := jsOrStr record.Job_Number ("DCP-" ++ natRepr record.OBJECTID)
          let bbl := normalizeBBL record.BBL
          let borough := boroughName record.Boro
          let address0 := (jsOrStr record.AddressNum "" ++ " "
            ++ jsOrStr record.AddressSt "").trim
          let address := if address0 = "" then "Address Not Available" else address0
          let lat := match record.Latitude with | .num q => q | _ => 0
          let lon := match record.Longitude with | .num q => q | _ => 0
          some
            { jobNumber := jobNumber
              jobType := jsOrStr record.Job_Type "Unknown"
              bbl := bbl
              borough := borough
              address := address
              longitude := lon
              latitude := lat
              completionYear := completionYear.toNat
              totalUnits := totalUnits
              classANet := jsRound classANet
              unitsCO := jsRound unitsCO
              buildingClass := record.Bldg_Class
              buildingType :=
                classifyBuildingType totalUnits 0 (jsOrStr record.Job_Type "Unknown")
                  false record.Bldg_Class
              physicalBuildingType := getPhysicalBuildingType totalUnits record.Bldg_Class
              affordableUnits := 0
              affordablePercentage := 0
              extremeLowIncomeUnits := 0
              veryLowIncomeUnits := 0
              lowIncomeUnits := 0
              moderateIncomeUnits := 0
              middleIncomeUnits := 0
              otherIncomeUnits := 0
              studioUnits := 0
              oneBrUnits := 0
              twoBrUnits := 0
              threeBrUnits := 0
              fourBrUnits := 0
              fiveBrUnits := 0
              sixBrUnits := 0
              unknownBrUnits := totalUnits
              dataSource := "dcp"
              hasAffordableOverlay := false
              housingNyProjectId := none
              housingNyProjectName := none
              housingNyConstructionType := none
              housingNyExtendedAffordabilityOnly := false }

/-- Process the DCP records: the accepted buildings in order, and the count
of skipped records. -/
def processDCPHousing (records : List DCPRecord) : List Building × Nat :=
  records.foldl
    (fun acc record =>
      match processDCPRecord record with
      | some b => (acc.1 ++ [b], acc.2)
      | none => (acc.1, acc.2 + 1))
    ([], 0)

/-!
## Theorems
-/

/-- C8. Property-identifier normalization strips all non-digit characters;
a 10-digit result is returned as-is, a 9-digit result is left-padded with one
leading zero, any other length (including a `null` input) yields absent; and
every non-absent normalized BBL is exactly 10 digits. -/
theorem normalizeBBL_spec :
    normalizeBBL none = none ∧
    ∀ s : String,
      (((String.mk (s.toList.filter Char.isDigit)).length = 10 →
          normalizeBBL (some s) = some (String.mk (s.toList.filter Char.isDigit))) ∧
        ((String.mk (s.toList.filter Char.isDigit)).length = 9 →
          normalizeBBL (some s) = some ("0" ++ String.mk (s.toList.filter Char.isDigit))) ∧
        ((String.mk (s.toList.filter Char.isDigit)).length ≠ 10 →
          (String.mk (s.toList.filter Char.isDigit)).length ≠ 9 →
          normalizeBBL (some s) = none)) ∧
      ∀ out, normalizeBBL (some s) = some out →
        out.length = 10 ∧ out.toList.all Char.isDigit := by
  have hdig : ∀ s : String, ∀ c ∈ s.toList.filter Char.isDigit, c.isDigit :=
    fun s c hc => List.of_mem_filter hc
  constructor
  · rfl
  · intro s
    by_cases hs : s = ""
    · subst hs
      refine ⟨⟨by intro h; simp at h, by intro h; simp at h, fun _ _ => rfl⟩, ?_⟩
      intro out h
      simp [normalizeBBL] at h
    · have hunf : normalizeBBL (some s) =
          (if (String.mk (s.toList.filter Char.isDigit)).length = 10 then
            some (String.mk (s.toList.filter Char.isDigit))
          else if (String.mk (s.toList.filter Char.isDigit)).length = 9 then
            some ("0" ++ String.mk (s.toList.filter Char.isDigit))
          else none) := by
        simp only [normalizeBBL, if_neg hs]
      refine ⟨⟨?_, ?_, ?_⟩, ?_⟩
      · intro h10
        rw [hunf, if_pos h10]
      · intro h9
        have h10 : ¬ (String.mk (s.toList.filter Char.isDigit)).length = 10 := by omega
        rw [hunf, if_neg h10, if_pos h9]
      · intro h10 h9
        rw [hunf, if_neg h10, if_neg h9]
      · intro out h
        rw [hunf] at h
        split at h
        · rename_i h10
          cases h
          refine ⟨h10, ?_⟩
          exact List.all_eq_true.2 fun c hc => hdig s c hc
        · split at h
          · rename_i h9
            cases h
            constructor
            · have hl := String.length_append "0" (String.mk (s.toList.filter Char.isDigit))
              have h1 : ("0" : String).length = 1 := rfl
              omega
            · refine List.all_eq_true.2 fun c hc => ?_
              have : c ∈ ('0' :: s.toList.filter Char.isDigit) := hc
              rcases this with _ | h0
              · decide
              · exact hdig s c (by assumption)
          · cases h

/-- C8 witness: a concrete dashed BBL normalizes to its 10 digits. -/
theorem normalizeBBL_spec_witness :
    normalizeBBL (some "1-00123-0045") = some "1001230045" := by
  have h := (normalizeBBL_spec.2 "1-00123-0045").1.1 (by decide)
  exact h.trans (by decide)

/-- C2 counterexample: with unit count 0, no overlay, job type "New Building"
and class code null the classifier returns `one-two-family` (the `≤ 2`
branch), not `unknown` as the spec states. -/
theorem classifyBuildingType_zero_units_cex :
    classifyBuildingType 0 0 "New Building" false none = "one-two-family" ∧
    classifyBuildingType 0 0 "New Building" false none ≠ "unknown" := by
  constructor
  · rfl
  · decide

/-- C2 (amended). The classifier, a pure function of its declared inputs,
returns `one-two-family` for unit count 0 with no overlay, job type
"New Building" and class code null; `multifamily-elevator` for unit count
120 under the same conditions; and `affordable` for every unit count, job
type and class code once an overlay is present with affordable-unit count 5. -/
theorem classifyBuildingType_spec :
    classifyBuildingType 0 0 "New Building" false none = "one-two-family" ∧
    classifyBuildingType 120 0 "New Building" false none = "multifamily-elevator" ∧
    ∀ (totalUnits : Int) (jobType : String) (buildingClass : Option String),
      classifyBuildingType totalUnits 5 jobType true buildingClass = "affordable" := by
  refine ⟨rfl, rfl, ?_⟩
  intro totalUnits jobType buildingClass
  simp [classifyBuildingType]

/-- C3. The overlay merger is idempotent: re-merging the same overlay map
onto already-merged buildings changes no field of any record. -/
theorem overlayAffordableData_idempotent (bs : List Building)
    (m : String → Option OverlayData) :
    overlayAffordableData (overlayAffordableData bs m) m
      = overlayAffordableData bs m := by
  unfold overlayAffordableData
  rw [List.map_map]
  apply List.map_congr_left
  intro b _
  show overlayOne m (overlayOne m b) = overlayOne m b
  unfold overlayOne
  cases hb : b.bbl with
  | none => simp [hb]
  | some s =>
    by_cases hs : s = ""
    · simp [hb, hs]
    · cases hm : m s with
      | none => simp [hb, hs, hm]
      | some d => simp [hb, hs, hm]

/-- The farthest-point scan either never fires (accumulator still `(0, 0)`)
or returns an index strictly between the endpoints. -/
theorem farthestScan_cases (points : List Point) (p₁ p₂ : Point) :
    farthestScan points p₁ p₂ = ((0 : ℚ), (0 : Nat)) ∨
      (1 ≤ (farthestScan points p₁ p₂).2 ∧
        (farthestScan points p₁ p₂).2 + 2 ≤ points.length) := by
  have key : ∀ (l : List Nat) (acc : ℚ × Nat),
      (∀ i ∈ l, i < points.length) →
      (acc = ((0 : ℚ), (0 : Nat)) ∨ (1 ≤ acc.2 ∧ acc.2 + 2 ≤ points.length)) →
      (l.foldl
          (fun acc i =>
            if i = 0 ∨ i = points.length - 1 then acc
            else if (perpNum p₁ p₂ (points.getD i (0, 0))) ^ 2 > acc.1 then
              ((perpNum p₁ p₂ (points.getD i (0, 0))) ^ 2, i)
            else acc)
          acc = ((0 : ℚ), (0 : Nat)) ∨
        (1 ≤ (l.foldl
            (fun acc i =>
              if i = 0 ∨ i = points.length - 1 then acc
              else if (perpNum p₁ p₂ (points.getD i (0, 0))) ^ 2 > acc.1 then
                ((perpNum p₁ p₂ (points.getD i (0, 0))) ^ 2, i)
              else acc)
            acc).2 ∧
          (l.foldl
            (fun acc i =>
              if i = 0 ∨ i = points.length - 1 then acc
              else if (perpNum p₁ p₂ (points.getD i (0, 0))) ^ 2 > acc.1 then
                ((perpNum p₁ p₂ (points.getD i (0, 0))) ^ 2, i)
              else acc)
            acc).2 + 2 ≤ points.length)) := by
    intro l
    induction l with
    | nil => intro acc _ hacc; simpa using hacc
    | cons i t ih =>
      intro acc hmem hacc
      rw [List.foldl_cons]
      apply ih
      · intro j hj; exact hmem j (List.mem_cons_of_mem _ hj)
      · by_cases h0 : i = 0 ∨ i = points.length - 1
        · rw [if_pos h0]; exact hacc
        · have hi : i < points.length := hmem i (List.mem_cons_self _ _)
          obtain ⟨h01, h02⟩ := not_or.1 h0
          rw [if_neg h0]
          by_cases hup : (perpNum p₁ p₂ (points.getD i (0, 0))) ^ 2 > acc.1
          · rw [if_pos hup]
            right
            refine ⟨?_, ?_⟩
            · show 1 ≤ i
              omega
            · show i + 2 ≤ points.length
              omega
          · rw [if_neg hup]
            exact hacc
  exact key (List.range points.length) ((0 : ℚ), (0 : Nat))
    (fun i hi => List.mem_range.1 hi) (Or.inl rfl)

/-- Whatever the fuel and tolerance, a finished simplification never has more
vertices than its input. -/
theorem simplifyLineF_some_length : ∀ (fuel : Nat) (points : List Point)
    (tolerance : ℚ) (out : List Point),
    simplifyLineF fuel points tolerance = some out → out.length ≤ points.length := by
  intro fuel
  induction fuel with
  | zero => intro points t out h; simp [simplifyLineF] at h
  | succ n ih =>
    intro points t out h
    simp only [simplifyLineF] at h
    split at h
    · cases h; exact le_refl _
    · rename_i hlen
      split at h
      · cases h
        simp only [List.length_cons, List.length_nil]
        omega
      · split at h
        · rcases Option.bind_eq_some.1 h with ⟨left, hL, h2⟩
          rcases Option.map_eq_some'.1 h2 with ⟨right, hR, hout⟩
          subst hout
          have l1 := ih _ _ _ hL
          have l2 := ih _ _ _ hR
          rw [List.length_take] at l1
          rw [List.length_drop] at l2
          rw [List.length_append, List.length_dropLast]
          omega
        · cases h
          simp only [List.length_cons, List.length_nil]
          omega

/-- With any remaining fuel, an input of at most two points is returned
unchanged. -/
theorem simplifyLineF_short (fuel : Nat) (points : List Point) (tolerance : ℚ)
    (hfuel : 1 ≤ fuel) (hlen : points.length ≤ 2) :
    simplifyLineF fuel points tolerance = some points := by
  obtain ⟨n, rfl⟩ : ∃ n, fuel = n + 1 := ⟨fuel - 1, by omega⟩
  simp only [simplifyLineF]
  rw [if_pos hlen]

/-- With at least three points and coincident endpoints, the result collapses
to the single first point. -/
theorem simplifyLineF_coincident (fuel : Nat) (points : List Point)
    (tolerance : ℚ) (hfuel : 1 ≤ fuel) (hlen : 2 < points.length)
    (hcoin : points.headD (0, 0) = points.getLastD (0, 0)) :
    simplifyLineF fuel points tolerance = some [points.headD (0, 0)] := by
  obtain ⟨n, rfl⟩ : ∃ n, fuel = n + 1 := ⟨fuel - 1, by omega⟩
  simp only [simplifyLineF]
  rw [if_neg (by omega : ¬ points.length ≤ 2)]
  have hz : ((points.getLastD (0, 0)).2 - (points.headD (0, 0)).2) ^ 2
      + ((points.getLastD (0, 0)).1 - (points.headD (0, 0)).1) ^ 2 = 0 := by
    rw [← hcoin]; ring
  rw [if_pos hz]

/-- For a non-negative tolerance the recursion terminates: whenever it
recurses the split index is strictly interior, so call depth is bounded by
the input length. -/
theorem simplifyLineF_isSome : ∀ (fuel : Nat) (points : List Point)
    (tolerance : ℚ), 0 ≤ tolerance → points.length < fuel →
    (simplifyLineF fuel points tolerance).isSome = true := by
  intro fuel
  induction fuel with
  | zero => intro points t _ h; omega
  | succ n ih =>
    intro points t ht hlen
    simp only [simplifyLineF]
    split
    · rfl
    · rename_i hshort
      have hcases := farthestScan_cases points (points.headD (0, 0)) (points.getLastD (0, 0))
      split
      · rfl
      · rename_i hz
        split
        · rename_i hcond
          have hk : 1 ≤ (farthestScan points (points.headD (0, 0)) (points.getLastD (0, 0))).2 ∧
              (farthestScan points (points.headD (0, 0)) (points.getLastD (0, 0))).2 + 2
                ≤ points.length := by
            rcases hcond with hneg | hbig
            · exact absurd ht (not_le.2 hneg)
            · rcases hcases with h00 | hgood
              · exfalso
                have h1 : (farthestScan points (points.headD (0, 0))
                    (points.getLastD (0, 0))).1 = 0 := by rw [h00]
                rw [h1] at hbig
                have : (0 : ℚ) ≤ t ^ 2 * (((points.getLastD (0, 0)).2
                    - (points.headD (0, 0)).2) ^ 2
                    + ((points.getLastD (0, 0)).1 - (points.headD (0, 0)).1) ^ 2) := by
                  positivity
                linarith
              · exact hgood
          have hL := ih (points.take
              ((farthestScan points (points.headD (0, 0)) (points.getLastD (0, 0))).2 + 1)) t ht
            (by rw [List.length_take]; omega)
          have hR := ih (points.drop
              ((farthestScan points (points.headD (0, 0)) (points.getLastD (0, 0))).2)) t ht
            (by rw [List.length_drop]; omega)
          obtain ⟨left, hLs⟩ := Option.isSome_iff_exists.1 hL
          obtain ⟨right, hRs⟩ := Option.isSome_iff_exists.1 hR
          rw [hLs, hRs]
          rfl
        · rfl

/-- The step equation of `simplifyLineF` on the collinear 3-point list with
tolerance `-1`: the maximal interior distance is `0 > -1`, the fold never
fired, so the split index is `0` and the right half is the entire input. -/
theorem simplifyLineF_negTol_step (n : Nat) :
    simplifyLineF (n + 1)
        [((0 : ℚ), (0 : ℚ)), ((1 : ℚ), (0 : ℚ)), ((2 : ℚ), (0 : ℚ))] (-1)
      = (simplifyLineF n [((0 : ℚ), (0 : ℚ))] (-1)).bind fun left =>
          (simplifyLineF n
              [((0 : ℚ), (0 : ℚ)), ((1 : ℚ), (0 : ℚ)), ((2 : ℚ), (0 : ℚ))] (-1)).map
            fun right => left.dropLast ++ right := by
  simp only [simplifyLineF]
  norm_num [farthestScan, perpNum, List.range_succ, List.getD]

/-- With a negative tolerance and collinear interior points, the recursion
re-invokes itself on the whole input and never finishes, whatever the fuel. -/
theorem simplifyLineF_negTol_none : ∀ n : Nat,
    simplifyLineF n [((0 : ℚ), (0 : ℚ)), ((1 : ℚ), (0 : ℚ)), ((2 : ℚ), (0 : ℚ))] (-1)
      = none := by
  intro n
  induction n with
  | zero => rfl
  | succ m ih =>
    rw [simplifyLineF_negTol_step, ih]
    cases simplifyLineF m [((0 : ℚ), (0 : ℚ))] (-1) <;> rfl

/-- C4. For every ring and tolerance a finished simplification has at most
the input's vertex count; with fuel left, an input of ≤ 2 points is returned
unchanged; with ≥ 3 points and coincident endpoints the result is the single
first point; and the 4-point unit-square ring with tolerance `2` (larger than
the diagonal `√2`, since `2² = 4 > 2`) collapses to exactly its two
endpoints. -/
theorem simplifyLine_spec :
    (∀ (fuel : Nat) (points : List Point) (tolerance : ℚ) (out : List Point),
        simplifyLineF fuel points tolerance = some out →
        out.length ≤ points.length) ∧
    (∀ (fuel : Nat) (points : List Point) (tolerance : ℚ),
        1 ≤ fuel → points.length ≤ 2 →
        simplifyLineF fuel points tolerance = some points) ∧
    (∀ (fuel : Nat) (points : List Point) (tolerance : ℚ),
        1 ≤ fuel → 2 < points.length →
        points.headD (0, 0) = points.getLastD (0, 0) →
        simplifyLineF fuel points tolerance = some [points.headD (0, 0)]) ∧
    simplifyLineF 4 [((0 : ℚ), (0 : ℚ)), ((0 : ℚ), (1 : ℚ)), ((1 : ℚ), (1 : ℚ)),
        ((1 : ℚ), (0 : ℚ))] 2
      = some [((0 : ℚ), (0 : ℚ)), ((1 : ℚ), (0 : ℚ))] :=
  ⟨simplifyLineF_some_length, simplifyLineF_short, simplifyLineF_coincident, by
    simp only [simplifyLineF]
    norm_num [farthestScan, perpNum, List.range_succ, List.getD]⟩

/-- C4 witness: the three quantified parts of `simplifyLine_spec` applied at
concrete inputs — a 2-point ring is unchanged, a 3-point ring with coincident
endpoints collapses to its first point, and the square's output (2 vertices)
is no longer than its input (4 vertices). -/
theorem simplifyLine_spec_witness :
    simplifyLineF 3 [((0 : ℚ), (0 : ℚ)), ((5 : ℚ), (7 : ℚ))] (1 / 10)
        = some [((0 : ℚ), (0 : ℚ)), ((5 : ℚ), (7 : ℚ))] ∧
    simplifyLineF 3 [((1 : ℚ), (2 : ℚ)), ((3 : ℚ), (4 : ℚ)), ((1 : ℚ), (2 : ℚ))]
        (1 / 10) = some [((1 : ℚ), (2 : ℚ))] ∧
    ([((0 : ℚ), (0 : ℚ)), ((1 : ℚ), (0 : ℚ))] : List Point).length
      ≤ ([((0 : ℚ), (0 : ℚ)), ((0 : ℚ), (1 : ℚ)), ((1 : ℚ), (1 : ℚ)),
          ((1 : ℚ), (0 : ℚ))] : List Point).length := by
  refine ⟨?_, ?_, ?_⟩
  · exact simplifyLine_spec.2.1 3 _ _ (by omega) (by decide)
  · exact simplifyLine_spec.2.2.1 3 _ _ (by omega) (by decide) rfl
  · exact simplifyLine_spec.1 4 _ 2 _ simplifyLine_spec.2.2.2

/-- C9 counterexample: the claim quantifies over every tolerance, but with
tolerance `-1` on a 3-point collinear ring the maximal interior distance is
`0 > -1` while the farthest-point index is still `0`, so the right recursive
call receives the whole input again (`slice(0)` is not strictly shorter) and
the recursion never terminates: even 100 levels of call depth do not finish. -/
theorem simplifyLine_nonterminating_cex :
    simplifyLineF 100
        [((0 : ℚ), (0 : ℚ)), ((1 : ℚ), (0 : ℚ)), ((2 : ℚ), (0 : ℚ))] (-1) = none :=
  simplifyLineF_negTol_none 100

/-- C9 (amended). For every non-negative tolerance the simplifier terminates
on every finite input: whenever the scan's maximum is nonzero (as it must be
for the recursion guard to fire with tolerance ≥ 0) the split index lies
strictly between the endpoints, so both recursive sub-lists are strictly
shorter and call depth `> length` always suffices. -/
theorem simplifyLine_terminates :
    (∀ (points : List Point) (p₁ p₂ : Point),
        (farthestScan points p₁ p₂).1 ≠ 0 →
        1 ≤ (farthestScan points p₁ p₂).2 ∧
          (farthestScan points p₁ p₂).2 + 2 ≤ points.length) ∧
    ∀ (fuel : Nat) (points : List Point) (tolerance : ℚ),
      0 ≤ tolerance → points.length < fuel →
      (simplifyLineF fuel points tolerance).isSome = true := by
  constructor
  · intro points p₁ p₂ hne
    rcases farthestScan_cases points p₁ p₂ with h | h
    · exact absurd (by rw [h]) hne
    · exact h
  · exact simplifyLineF_isSome

/-- C9 witness: termination on the concrete square ring with tolerance 2,
and the strict interiority of the farthest index on that ring. -/
theorem simplifyLine_terminates_witness :
    (simplifyLineF 5 [((0 : ℚ), (0 : ℚ)), ((0 : ℚ), (1 : ℚ)), ((1 : ℚ), (1 : ℚ)),
        ((1 : ℚ), (0 : ℚ))] 2).isSome = true ∧
    1 ≤ (farthestScan [((0 : ℚ), (0 : ℚ)), ((0 : ℚ), (1 : ℚ)), ((1 : ℚ), (1 : ℚ)),
        ((1 : ℚ), (0 : ℚ))] ((0 : ℚ), (0 : ℚ)) ((1 : ℚ), (0 : ℚ))).2 := by
  constructor
  · exact simplifyLine_terminates.2 5 _ 2 (by norm_num) (by decide)
  · exact (simplifyLine_terminates.1 _ ((0 : ℚ), (0 : ℚ)) ((1 : ℚ), (0 : ℚ))
      (by norm_num [farthestScan, perpNum, List.range_succ, List.getD])).1

/-- C10. The content fingerprint is total and deterministic: the empty array
yields the constant `"empty"`; for lengths 1–4 the middle-sample stride is
zero and (like JavaScript's `idx % 0 === 0`, which is never true) no samples
are selected, yet the function still returns a digest; every non-empty array
gets the hex digest of its serialized summary; equal inputs give equal
fingerprints. -/
theorem calculateDataHash_total :
    calculateDataHash [] = "empty" ∧
    (∀ records : List String, 1 ≤ records.length → records.length ≤ 4 →
        hashSamples records = []) ∧
    (∀ records : List String, records ≠ [] →
        calculateDataHash records
          = String.mk (Nat.toDigits 16 (fnvHash (summaryString records)))) ∧
    ∀ r1 r2 : List String, r1 = r2 → calculateDataHash r1 = calculateDataHash r2 := by
  refine ⟨rfl, ?_, ?_, ?_⟩
  · intro records h1 h4
    have hz : records.length / 5 = 0 := Nat.div_eq_of_lt (by omega)
    simp [hashSamples, hz]
  · intro records hne
    have : records.isEmpty = false := by
      cases records with
      | nil => exact absurd rfl hne
      | cons a t => rfl
    simp [calculateDataHash, this]
  · intro r1 r2 h
    rw [h]

/-- C10 witness: the quantified parts of `calculateDataHash_total` at
concrete inputs. -/
theorem calculateDataHash_total_witness :
    hashSamples ["a", "b", "c"] = [] ∧
    calculateDataHash ["a"]
      = String.mk (Nat.toDigits 16 (fnvHash (summaryString ["a"]))) ∧
    calculateDataHash ["a"] = calculateDataHash ["a"] :=
  ⟨calculateDataHash_total.2.1 _ (by decide) (by decide),
    calculateDataHash_total.2.2.1 _ (by decide),
    calculateDataHash_total.2.2.2 _ _ rfl⟩

/-- C5. If a storage query executed during change detection raises — the
count query, or the sample query once it is reached — the detector returns
the fail-open verdict with `hasChanges = true` instead of propagating the
error (the embedding is a total function: it cannot throw). -/
theorem detectDataChanges_failOpen (db : ChangeDb) (newRecords : List String)
    (hashData : Bool)
    (h : (∃ e, db.countResult = .error e) ∨
      (db.countResult = .ok newRecords.length ∧ hashData = true ∧
        ∃ e, db.sampleResult = .error e)) :
    detectDataChanges db newRecords hashData
      = { hasChanges := true,
          reason := "Change detection failed - proceeding with update" } := by
  rcases h with ⟨e, he⟩ | ⟨hc, hh, e, he⟩
  · simp [detectDataChanges, he]
  · subst hh
    simp [detectDataChanges, hc, he]

/-- C5 witness: a raising count query, at concrete inputs. -/
theorem detectDataChanges_failOpen_witness :
    detectDataChanges ⟨.error "db down", .ok []⟩ ["x"] true
      = { hasChanges := true,
          reason := "Change detection failed - proceeding with update" } :=
  detectDataChanges_failOpen _ _ _ (Or.inl ⟨"db down", rfl⟩)

set_option maxRecDepth 100000 in
/-- C6 counterexample: seven records of equal count where exactly one field of
the record at index 5 changes (`"v":0` to `"v":1`).  The fingerprint samples
only the first, last and first five stride-1 records, so index 5 is never
hashed: both fingerprints agree and the detector reports *no* change, against
the claim's "for every pair … hasChanges = true via hash mismatch". -/
theorem detectDataChanges_unsampled_change_cex :
    detectDataChanges
        ⟨.ok 7, .ok ["\x7b\"id\":0\x7d", "\x7b\"id\":1\x7d", "\x7b\"id\":2\x7d",
          "\x7b\"id\":3\x7d", "\x7b\"id\":4\x7d", "\x7b\"id\":5,\"v\":0\x7d",
          "\x7b\"id\":6\x7d"]⟩
        ["\x7b\"id\":0\x7d", "\x7b\"id\":1\x7d", "\x7b\"id\":2\x7d",
          "\x7b\"id\":3\x7d", "\x7b\"id\":4\x7d", "\x7b\"id\":5,\"v\":1\x7d",
          "\x7b\"id\":6\x7d"] true
      = { hasChanges := false, reason := "Data is identical to existing records" } := by
  decide

/-- C6 (amended). When the two fingerprints of the capped samples differ —
as they do when a *sampled* record's field changes — the detector reports
`hasChanges = true` via hash mismatch; changes confined to unsampled records
can go undetected (see the counterexample).  An empty current store with any
non-empty new set reports `hasChanges = true` with reason
"Table is empty - initial seed required". -/
theorem detectDataChanges_spec :
    (∀ (db : ChangeDb) (newRecords existing : List String),
        db.countResult = .ok newRecords.length →
        db.sampleResult = .ok existing →
        calculateDataHash existing ≠ calculateDataHash (newRecords.take 1000) →
        detectDataChanges db newRecords true
          = { hasChanges := true,
              reason := "Data content has changed (hash mismatch)" }) ∧
    ∀ (db : ChangeDb) (newRecords : List String) (hashData : Bool),
      db.countResult = .ok 0 → newRecords ≠ [] →
      detectDataChanges db newRecords hashData
        = { hasChanges := true,
            reason := "Table is empty - initial seed required" } := by
  constructor
  · intro db new ex hc hs hne
    simp [detectDataChanges, hc, hs, hne]
  · intro db new hd hc hne
    have hlen : 0 ≠ new.length := by
      intro h
      exact hne (List.length_eq_zero.1 h.symm)
    simp [detectDataChanges, hc, hlen]

set_option maxRecDepth 100000 in
/-- C6 witness: a one-record set whose single record's content changed (the
record is sampled, the fingerprints differ), and an empty store against a
non-empty new set. -/
theorem detectDataChanges_spec_witness :
    detectDataChanges ⟨.ok 1, .ok ["\x7b\"v\":0\x7d"]⟩ ["\x7b\"v\":1\x7d"] true
      = { hasChanges := true,
          reason := "Data content has changed (hash mismatch)" } ∧
    detectDataChanges ⟨.ok 0, .ok []⟩ ["\x7b\"v\":1\x7d"] true
      = { hasChanges := true,
          reason := "Table is empty - initial seed required" } :=
  ⟨detectDataChanges_spec.1 _ _ ["\x7b\"v\":0\x7d"] rfl rfl (by decide),
    detectDataChanges_spec.2 _ _ _ rfl (by decide)⟩

/-- A raw record whose `Latitude` parses to a non-finite number (as
`parseFloat` yields for `"Infinity"` or an overflowing literal like
`"1e999"`), with valid year and positive units. -/
def dcpInfinityRecord : DCPRecord :=
  { Latitude := .inf
    Longitude := .num 1
    CompltYear := some 2020
    ClassANet := some 5
    Units_CO := some 0
    Job_Number := some "X1"
    OBJECTID := 1
    BBL := none
    Boro := none
    AddressNum := none
    AddressSt := none
    Job_Type := some "New Building"
    Bldg_Class := none }

/-- C7 counterexample: the claim says a record whose coordinate fails to
parse as a *finite* number is dropped, but the code only tests `isNaN` and
`=== 0`: a `Latitude` of `Infinity` passes the coordinate check and the
record appears in the output (it is not skipped). -/
theorem processDCPHousing_nonfinite_coord_cex :
    (processDCPHousing [dcpInfinityRecord]).1.length = 1 ∧
    (processDCPHousing [dcpInfinityRecord]).2 = 0 := by
  have hsome : ∃ b, processDCPRecord dcpInfinityRecord = some b := by
    simp only [processDCPRecord, dcpInfinityRecord, JSNum.isNaN, JSNum.isZero,
      Option.getD]
    norm_num [jsRound]
  obtain ⟨b, hb⟩ := hsome
  simp [processDCPHousing, hb]

/-- C7 (amended). A record either of whose coordinates parses to `NaN` or to
exactly zero is dropped — it contributes nothing to the output list and is
counted as skipped — and the embedding never raises (records parsing to
`±Infinity`, however, pass the coordinate check; see the counterexample). -/
theorem processDCPHousing_drops_bad_coords :
    (∀ r : DCPRecord,
        (r.Latitude.isNaN || r.Longitude.isNaN
          || r.Latitude.isZero || r.Longitude.isZero) = true →
        processDCPRecord r = none) ∧
    ∀ records : List DCPRecord,
      (processDCPHousing records).1 = records.filterMap processDCPRecord ∧
      (processDCPHousing records).2
        = (records.filter (fun r => (processDCPRecord r).isNone)).length := by
  constructor
  · intro r h
    simp only [processDCPRecord, h, if_true]
  · have key : ∀ (l : List DCPRecord) (acc : List Building × Nat),
        (l.foldl
            (fun acc record =>
              match processDCPRecord record with
              | some b => (acc.1 ++ [b], acc.2)
              | none => (acc.1, acc.2 + 1))
            acc).1 = acc.1 ++ l.filterMap processDCPRecord ∧
        (l.foldl
            (fun acc record =>
              match processDCPRecord record with
              | some b => (acc.1 ++ [b], acc.2)
              | none => (acc.1, acc.2 + 1))
            acc).2 = acc.2 + (l.filter (fun r => (processDCPRecord r).isNone)).length := by
      intro l
      induction l with
      | nil => intro acc; simp
      | cons r t ih =>
        intro acc
        rw [List.foldl_cons, List.filterMap_cons, List.filter_cons]
        cases hr : processDCPRecord r with
        | none =>
          have h1 := (ih (acc.1, acc.2 + 1)).1
          have h2 := (ih (acc.1, acc.2 + 1)).2
          simp only [hr]
          refine ⟨h1.trans ?_, h2.trans ?_⟩
          · rfl
          · simp
            omega
        | some b =>
          have h1 := (ih (acc.1 ++ [b], acc.2)).1
          have h2 := (ih (acc.1 ++ [b], acc.2)).2
          simp only [hr]
          refine ⟨h1.trans ?_, h2.trans ?_⟩
          · simp
          · simp
    intro records
    simpa [processDCPHousing] using key records ([], 0)

/-- C7 witness: a `NaN` latitude and a zero longitude are both dropped. -/
theorem processDCPHousing_drops_bad_coords_witness :
    processDCPRecord { dcpInfinityRecord with Latitude := .nan } = none ∧
    processDCPRecord { dcpInfinityRecord with
        Latitude := .num 50, Longitude := .num 0 } = none :=
  ⟨processDCPHousing_drops_bad_coords.1 _ (by simp [JSNum.isNaN, dcpInfinityRecord]),
    processDCPHousing_drops_bad_coords.1 _
      (by simp [JSNum.isNaN, JSNum.isZero, dcpInfinityRecord])⟩

/-!
## Infrastructure for the deduplication theorem

The `Map` key is the string `` `${bbl}-${year}` ``.  For buildings satisfying
the ConstructionRecord invariant (property identifier, when present, is
exactly 10 digits) the key determines the `(bbl, year)` pair, because the
digit characters on either side of the separator cannot contain `'-'`.
-/

theorem digitChar_isDigit (m : Nat) (hm : m < 10) :
    (Char.ofNat (48 + m)).isDigit = true := by
  interval_cases m <;> decide

theorem digitChar_toNat (m : Nat) (hm : m < 10) :
    (Char.ofNat (48 + m)).toNat = 48 + m := by
  interval_cases m <;> decide

theorem natDigitsGo_append : ∀ (fuel n : Nat) (acc : List Char),
    natDigitsGo fuel n acc = natDigitsGo fuel n [] ++ acc := by
  intro fuel
  induction fuel with
  | zero => intro n acc; rfl
  | succ f ih =>
    intro n acc
    by_cases h : n < 10
    · simp [natDigitsGo, h]
    · simp only [natDigitsGo, h, if_false]
      rw [ih (n / 10) (Char.ofNat (48 + n % 10) :: acc),
        ih (n / 10) [Char.ofNat (48 + n % 10)], List.append_assoc]
      rfl

theorem natDigits_isDigit : ∀ (n : Nat), ∀ c ∈ natDigits n, c.isDigit = true := by
  have go : ∀ (fuel n : Nat) (acc : List Char), (∀ c ∈ acc, c.isDigit = true) →
      ∀ c ∈ natDigitsGo fuel n acc, c.isDigit = true := by
    intro fuel
    induction fuel with
    | zero => intro n acc hacc; exact hacc
    | succ f ih =>
      intro n acc hacc c hc
      by_cases h : n < 10
      · simp only [natDigitsGo, h, if_true] at hc
        rcases List.mem_cons.1 hc with rfl | hmem
        · exact digitChar_isDigit _ (Nat.mod_lt _ (by omega))
        · exact hacc c hmem
      · simp only [natDigitsGo, h, if_false] at hc
        refine ih (n / 10) _ ?_ c hc
        intro c' hc'
        rcases List.mem_cons.1 hc' with rfl | hmem
        · exact digitChar_isDigit _ (Nat.mod_lt _ (by omega))
        · exact hacc c' hmem
  intro n
  exact go (n + 1) n [] (by simp)

/-- Decimal value of a digit string, used to invert the printer. -/
def natVal (l : List Char) : Nat :=
  l.foldl (fun a c => 10 * a + (c.toNat - 48)) 0

theorem natVal_append_digit (l : List Char) (c : Char) :
    natVal (l ++ [c]) = 10 * natVal l + (c.toNat - 48) := by
  unfold natVal
  rw [List.foldl_append]
  rfl

theorem natVal_natDigits : ∀ (n : Nat), natVal (natDigits n) = n := by
  have go : ∀ (fuel n : Nat), n < 10 ^ fuel → natVal (natDigitsGo fuel n []) = n := by
    intro fuel
    induction fuel with
    | zero => intro n hn; interval_cases n; rfl
    | succ f ih =>
      intro n hn
      by_cases h : n < 10
      · simp only [natDigitsGo, h, if_true]
        show 10 * 0 + ((Char.ofNat (48 + n % 10)).toNat - 48) = n
        rw [digitChar_toNat _ (Nat.mod_lt _ (by omega))]
        omega
      · simp only [natDigitsGo, h, if_false]
        rw [natDigitsGo_append, natVal_append_digit]
        have hdiv : n / 10 < 10 ^ f := by
          rw [Nat.div_lt_iff_lt_mul (by omega)]
          calc n < 10 ^ (f + 1) := hn
          _ = 10 ^ f * 10 := by rw [pow_succ]
        rw [ih (n / 10) hdiv, digitChar_toNat _ (Nat.mod_lt _ (by omega))]
        omega
  intro n
  exact go (n + 1) n (lt_trans (Nat.lt_pow_self (by omega) n)
    (Nat.pow_lt_pow_right (by omega) (by omega)))

theorem natRepr_inj (a b : Nat) (h : natRepr a = natRepr b) : a = b := by
  have hd : natDigits a = natDigits b := congrArg String.data h
  have := natVal_natDigits a
  rw [hd, natVal_natDigits b] at this
  omega

theorem natRepr_isDigit (n : Nat) : ∀ c ∈ (natRepr n).toList, c.isDigit = true :=
  natDigits_isDigit n

/-- Splitting at a separator that occurs in neither left part is unambiguous. -/
theorem append_dash_inj : ∀ (l₁ l₂ m₁ m₂ : List Char), '-' ∉ l₁ → '-' ∉ l₂ →
    l₁ ++ '-' :: m₁ = l₂ ++ '-' :: m₂ → l₁ = l₂ ∧ m₁ = m₂ := by
  intro l₁
  induction l₁ with
  | nil =>
    intro l₂ m₁ m₂ _ h₂ h
    cases l₂ with
    | nil => simpa using h
    | cons c t =>
      simp only [List.nil_append, List.cons_append, List.cons.injEq] at h
      exact absurd (h.1 ▸ List.mem_cons_self _ _) h₂
  | cons c t ih =>
    intro l₂ m₁ m₂ h₁ h₂ h
    cases l₂ with
    | nil =>
      simp only [List.cons_append, List.nil_append, List.cons.injEq] at h
      exact absurd (h.1 ▸ List.mem_cons_self _ _) h₁
    | cons c' t' =>
      simp only [List.cons_append, List.cons.injEq] at h
      obtain ⟨rfl, h⟩ := h
      obtain ⟨rfl, rfl⟩ := ih t' m₁ m₂ (fun hm => h₁ (List.mem_cons_of_mem _ hm))
        (fun hm => h₂ (List.mem_cons_of_mem _ hm)) h
      exact ⟨rfl, rfl⟩

theorem isDigit_ne_dash {c : Char} (h : c.isDigit = true) : c ≠ '-' := by
  intro rfl_eq
  subst rfl_eq
  simp at h

/-- On digit-only property identifiers the grouping key determines the
`(bbl, year)` pair. -/
theorem dedupKey_inj (s₁ s₂ : String) (y₁ y₂ : Nat)
    (h₁ : ∀ c ∈ s₁.toList, c.isDigit = true)
    (h₂ : ∀ c ∈ s₂.toList, c.isDigit = true)
    (h : dedupKey s₁ y₁ = dedupKey s₂ y₂) : s₁ = s₂ ∧ y₁ = y₂ := by
  have hl : s₁.data ++ '-' :: (natRepr y₁).data
      = s₂.data ++ '-' :: (natRepr y₂).data := by
    have := congrArg String.data h
    simpa [dedupKey, String.data_append] using this
  obtain ⟨hs, hy⟩ := append_dash_inj s₁.data s₂.data _ _
    (fun hm => isDigit_ne_dash (h₁ _ hm) rfl)
    (fun hm => isDigit_ne_dash (h₂ _ hm) rfl)
    hl
  constructor
  · exact congrArg String.mk hs
  · exact natRepr_inj _ _ (congrArg String.mk hy)

/-- The ordered tie-break as a lexicographic rank: unit count first, then
overlay presence (`false < true`), then job identifier (string order). -/
def dedupRank (b : Building) : Int ×ₗ (Bool ×ₗ String) :=
  toLex (b.totalUnits, toLex (b.hasAffordableOverlay, b.jobNumber))

theorem dedupRank_lt_iff (a b : Building) :
    dedupRank a < dedupRank b ↔
      (a.totalUnits < b.totalUnits ∨
        (a.totalUnits = b.totalUnits ∧
          (a.hasAffordableOverlay < b.hasAffordableOverlay ∨
            (a.hasAffordableOverlay = b.hasAffordableOverlay ∧
              a.jobNumber < b.jobNumber)))) := by
  unfold dedupRank
  rw [Prod.Lex.lt_iff, Prod.Lex.lt_iff]

/-- The `reduce` callback returns whichever argument ranks strictly higher,
keeping the accumulator on a full tie. -/
theorem betterOf_eq (best current : Building) :
    betterOf best current =
      if dedupRank best < dedupRank current then current else best := by
  unfold betterOf
  rcases lt_trichotomy current.totalUnits best.totalUnits with hu | hu | hu
  · rw [if_neg (by omega), if_pos hu,
      if_neg (by rw [dedupRank_lt_iff]; push_neg; omega)]
  · rw [if_neg (by omega), if_neg (by omega)]
    by_cases hc : current.hasAffordableOverlay
    · by_cases hb : best.hasAffordableOverlay
      · rw [if_neg (by simp [hc, hb]), if_neg (by simp [hc, hb])]
        by_cases hj : best.jobNumber < current.jobNumber
        · rw [if_pos hj, if_pos (by
            rw [dedupRank_lt_iff]
            exact Or.inr ⟨hu.symm, Or.inr ⟨by rw [hc, hb], hj⟩⟩)]
        · rw [if_neg hj, if_neg (by
            rw [dedupRank_lt_iff]
            push_neg
            exact ⟨by omega, fun _ => ⟨by simp [hc, hb], fun _ => hj⟩⟩)]
      · rw [if_pos (by simp [hc, hb]), if_pos (by
          rw [dedupRank_lt_iff]
          refine Or.inr ⟨hu.symm, Or.inl ?_⟩
          rw [Bool.lt_iff]
          exact ⟨by simp [hb], by simp [hc]⟩)]
    · by_cases hb : best.hasAffordableOverlay
      · rw [if_neg (by simp [hc]), if_pos (by simp [hc, hb]), if_neg (by
          rw [dedupRank_lt_iff]
          push_neg
          refine ⟨by omega, fun _ => ⟨by simp [hb], fun h2 => ?_⟩⟩
          rw [hb] at h2
          simp [hc] at h2)]
      · rw [if_neg (by simp [hc]), if_neg (by simp [hb])]
        by_cases hj : best.jobNumber < current.jobNumber
        · rw [if_pos hj, if_pos (by
            rw [dedupRank_lt_iff]
            refine Or.inr ⟨hu.symm, Or.inr ⟨?_, hj⟩⟩
            simp [hb, hc])]
        · rw [if_neg hj, if_neg (by
            rw [dedupRank_lt_iff]
            push_neg
            refine ⟨by omega, fun _ => ⟨?_, fun _ => hj⟩⟩
            simp [Bool.not_eq_true] at hc hb
            simp [hc, hb])]
  · rw [if_pos hu, if_pos (by rw [dedupRank_lt_iff]; exact Or.inl hu)]

/-- The fold of the `reduce` callback returns a member of the group that no
member strictly out-ranks. -/
theorem foldl_betterOf_spec : ∀ (t : List Building) (h : Building),
    t.foldl betterOf h ∈ h :: t ∧
      ∀ x ∈ h :: t, dedupRank x ≤ dedupRank (t.foldl betterOf h) := by
  intro t
  induction t with
  | nil =>
    intro h
    refine ⟨List.mem_cons_self _ _, ?_⟩
    intro x hx
    rcases List.mem_cons.1 hx with rfl | hx
    · exact le_refl _
    · cases hx
  | cons c t ih =>
    intro h
    rw [List.foldl_cons]
    obtain ⟨hmem, hmax⟩ := ih (betterOf h c)
    have hbc : betterOf h c = if dedupRank h < dedupRank c then c else h :=
      betterOf_eq h c
    have hb_mem : betterOf h c = c ∨ betterOf h c = h := by
      rw [hbc]; split <;> simp
    constructor
    · rcases List.mem_cons.1 hmem with he | hmem2
      · rcases hb_mem with h2 | h2
        · rw [he, h2]
          exact List.mem_cons_of_mem _ (List.mem_cons_self _ _)
        · rw [he, h2]
          exact List.mem_cons_self _ _
      · exact List.mem_cons_of_mem _ (List.mem_cons_of_mem _ hmem2)
    · intro x hx
      have hle_h : dedupRank h ≤ dedupRank (betterOf h c) := by
        rw [hbc]; split
        · exact le_of_lt (by assumption)
        · exact le_refl _
      have hle_c : dedupRank c ≤ dedupRank (betterOf h c) := by
        rw [hbc]; split
        · exact le_refl _
        · exact not_lt.1 (by assumption)
      have hacc := hmax (betterOf h c) (List.mem_cons_self _ _)
      rcases List.mem_cons.1 hx with rfl | hx2
      · exact le_trans hle_h hacc
      · rcases List.mem_cons.1 hx2 with rfl | hx3
        · exact le_trans hle_c hacc
        · exact hmax x (List.mem_cons_of_mem _ hx3)

theorem pickBest_mem {g : List Building} {m : Building}
    (h : pickBest g = some m) : m ∈ g := by
  cases g with
  | nil => cases h
  | cons a t =>
    cases h
    exact (foldl_betterOf_spec t a).1

theorem pickBest_max {g : List Building} {m : Building}
    (h : pickBest g = some m) : ∀ x ∈ g, dedupRank x ≤ dedupRank m := by
  cases g with
  | nil => cases h
  | cons a t =>
    cases h
    exact (foldl_betterOf_spec t a).2

theorem pickBest_isSome {g : List Building} (h : g ≠ []) :
    ∃ m, pickBest g = some m := by
  cases g with
  | nil => exact absurd rfl h
  | cons a t => exact ⟨_, rfl⟩

/-- Lookup of a key's group in the insertion-ordered association list. -/
def lookupG : List (String × List Building) → String → List Building
  | [], _ => []
  | (k', g) :: t, k => if k' = k then g else lookupG t k

/-- The keys of the grouping map, in insertion order. -/
def keysOf (gs : List (String × List Building)) : List String := gs.map Prod.fst

theorem lookupG_pushGroup : ∀ (gs : List (String × List Building)) (k : String)
    (b : Building) (k' : String),
    lookupG (pushGroup gs k b) k'
      = if k' = k then lookupG gs k ++ [b] else lookupG gs k' := by
  intro gs
  induction gs with
  | nil =>
    intro k b k'
    by_cases h : k' = k
    · subst h
      simp [pushGroup, lookupG]
    · have h2 : ¬ k = k' := fun hh => h hh.symm
      simp [pushGroup, lookupG, h, h2]
  | cons kg t ih =>
    intro k b k'
    obtain ⟨k₀, g⟩ := kg
    by_cases h0 : k₀ = k
    · subst h0
      rw [show pushGroup ((k₀, g) :: t) k₀ b = (k₀, g ++ [b]) :: t by
        simp [pushGroup]]
      by_cases h : k' = k₀
      · subst h
        simp [lookupG]
      · have h2 : ¬ k₀ = k' := fun hh => h hh.symm
        simp [lookupG, h, h2]
    · rw [show pushGroup ((k₀, g) :: t) k b = (k₀, g) :: pushGroup t k b by
        simp [pushGroup, h0]]
      by_cases h : k₀ = k'
      · subst h
        simp [lookupG, h0]
      · simp [lookupG, h, h0, ih k b k']

theorem keysOf_pushGroup : ∀ (gs : List (String × List Building)) (k : String)
    (b : Building),
    keysOf (pushGroup gs k b)
      = if k ∈ keysOf gs then keysOf gs else keysOf gs ++ [k] := by
  intro gs
  induction gs with
  | nil => intro k b; simp [pushGroup, keysOf]
  | cons kg t ih =>
    intro k b
    obtain ⟨k₀, g⟩ := kg
    by_cases h0 : k₀ = k
    · subst h0
      rw [show pushGroup ((k₀, g) :: t) k₀ b = (k₀, g ++ [b]) :: t by
        simp [pushGroup]]
      simp [keysOf]
    · rw [show pushGroup ((k₀, g) :: t) k b = (k₀, g) :: pushGroup t k b by
        simp [pushGroup, h0]]
      have hmem : k ∈ keysOf ((k₀, g) :: t) ↔ k ∈ keysOf t := by
        simp [keysOf]
        intro hh
        exact absurd hh.symm h0
      by_cases hk : k ∈ keysOf t
      · rw [if_pos (hmem.2 hk)]
        have := ih k b
        rw [if_pos hk] at this
        simp [keysOf] at this ⊢
        exact this
      · rw [if_neg (fun hh => hk (hmem.1 hh))]
        have := ih k b
        rw [if_neg hk] at this
        simp [keysOf] at this ⊢
        exact this

theorem lookupG_not_mem {gs : List (String × List Building)} {k : String}
    (h : k ∉ keysOf gs) : lookupG gs k = [] := by
  induction gs with
  | nil => rfl
  | cons kg t ih =>
    obtain ⟨k₀, g⟩ := kg
    have h1 : ¬ k₀ = k := by
      intro hh
      exact h (by simp [keysOf, hh])
    have h2 : k ∉ keysOf t := by
      intro hh
      refine h ?_
      simp [keysOf] at hh ⊢
      exact Or.inr hh
    simp [lookupG, h1, ih h2]

theorem lookupG_of_mem : ∀ (gs : List (String × List Building))
    (k : String) (g : List Building), (keysOf gs).Nodup → (k, g) ∈ gs →
    lookupG gs k = g := by
  intro gs
  induction gs with
  | nil => intro k g _ h; cases h
  | cons kg t ih =>
    intro k g hnodup hmem
    obtain ⟨k₀, g₀⟩ := kg
    have hnd : k₀ ∉ List.map Prod.fst t ∧ (List.map Prod.fst t).Nodup := by
      rw [keysOf, List.map_cons, List.nodup_cons] at hnodup
      exact hnodup
    rcases List.mem_cons.1 hmem with he | hmem2
    · injection he with h1 h2
      subst h1
      subst h2
      simp [lookupG]
    · have hkt : k ∈ List.map Prod.fst t := List.mem_map.2 ⟨(k, g), hmem2, rfl⟩
      have hk : ¬ k₀ = k := by
        intro hh
        subst hh
        exact hnd.1 hkt
      simp only [lookupG, if_neg hk]
      exact ih k g hnd.2 hmem2

/-- JS-falsy BBL test of the grouping loop (`!building.bbl`). -/
def passPred (b : Building) : Bool :=
  match b.bbl with
  | none => true
  | some s => s == ""

/-- Membership of a building in the group of key `k`: a truthy BBL whose
`` `${bbl}-${year}` `` key is `k`. -/
def inGroup (k : String) (b : Building) : Bool :=
  match b.bbl with
  | none => false
  | some s => (!(s == "")) && (dedupKey s b.completionYear == k)

/-- Well-formedness of the grouping map: insertion-ordered distinct keys and
no empty groups. -/
def groupsWF (gs : List (String × List Building)) : Prop :=
  (keysOf gs).Nodup ∧ ∀ kg ∈ gs, kg.2 ≠ []

theorem pushGroup_WF : ∀ (gs : List (String × List Building)) (k : String)
    (b : Building), groupsWF gs → groupsWF (pushGroup gs k b) := by
  intro gs k b ⟨hnodup, hne⟩
  constructor
  · rw [keysOf_pushGroup]
    split
    · exact hnodup
    · rename_i hmem
      simp [List.nodup_append, hnodup]
      simpa [keysOf] using hmem
  · intro kg hkg
    induction gs with
    | nil =>
      simp [pushGroup] at hkg
      subst hkg
      simp
    | cons kg₀ t ih =>
      obtain ⟨k₀, g₀⟩ := kg₀
      by_cases h0 : k₀ = k
      · subst h0
        rw [show pushGroup ((k₀, g₀) :: t) k₀ b = (k₀, g₀ ++ [b]) :: t by
          simp [pushGroup]] at hkg
        rcases List.mem_cons.1 hkg with he | hm
        · subst he; simp
        · exact hne kg (List.mem_cons_of_mem _ hm)
      · rw [show pushGroup ((k₀, g₀) :: t) k b = (k₀, g₀) :: pushGroup t k b by
          simp [pushGroup, h0]] at hkg
        rcases List.mem_cons.1 hkg with he | hm
        · subst he
          exact hne (k₀, g₀) (List.mem_cons_self _ _)
        · refine ih ?_ ?_ hm
          · rw [keysOf, List.map_cons, List.nodup_cons] at hnodup
            exact hnodup.2
          · intro kg' hkg'
            exact hne kg' (List.mem_cons_of_mem _ hkg')

theorem splitBuildings_go : ∀ (l : List Building)
    (acc : List Building × List (String × List Building)),
    (l.foldl
        (fun acc b =>
          match b.bbl with
          | none => (acc.1 ++ [b], acc.2)
          | some s =>
            if s = "" then (acc.1 ++ [b], acc.2)
            else (acc.1, pushGroup acc.2 (dedupKey s b.completionYear) b))
        acc).1 = acc.1 ++ l.filter passPred ∧
    (∀ k, lookupG
        (l.foldl
          (fun acc b =>
            match b.bbl with
            | none => (acc.1 ++ [b], acc.2)
            | some s =>
              if s = "" then (acc.1 ++ [b], acc.2)
              else (acc.1, pushGroup acc.2 (dedupKey s b.completionYear) b))
          acc).2 k = lookupG acc.2 k ++ l.filter (inGroup k)) ∧
    (groupsWF acc.2 →
      groupsWF
        (l.foldl
          (fun acc b =>
            match b.bbl with
            | none => (acc.1 ++ [b], acc.2)
            | some s =>
              if s = "" then (acc.1 ++ [b], acc.2)
              else (acc.1, pushGroup acc.2 (dedupKey s b.completionYear) b))
          acc).2) := by
  intro l
  induction l with
  | nil =>
    intro acc
    exact ⟨by simp, fun k => by simp, fun h => h⟩
  | cons b t ih =>
    intro acc
    rw [List.foldl_cons]
    cases hb : b.bbl with
    | none =>
      have hpass : passPred b = true := by simp [passPred, hb]
      have hgrp : ∀ k, inGroup k b = false := by intro k; simp [inGroup, hb]
      simp only [hb]
      obtain ⟨ih1, ih2, ih3⟩ := ih (acc.1 ++ [b], acc.2)
      refine ⟨?_, ?_, ?_⟩
      · rw [ih1, List.filter_cons, hpass]
        simp
      · intro k
        rw [ih2 k, List.filter_cons, hgrp k]
        rfl
      · exact ih3
    | some s =>
      by_cases hs : s = ""
      · have hpass : passPred b = true := by simp [passPred, hb, hs]
        have hgrp : ∀ k, inGroup k b = false := by intro k; simp [inGroup, hb, hs]
        simp only [hb, hs, if_pos rfl, if_true]
        obtain ⟨ih1, ih2, ih3⟩ := ih (acc.1 ++ [b], acc.2)
        refine ⟨?_, ?_, ?_⟩
        · rw [ih1, List.filter_cons, hpass]
          simp
        · intro k
          rw [ih2 k, List.filter_cons, hgrp k]
          rfl
        · exact ih3
      · have hpass : passPred b = false := by simp [passPred, hb, hs]
        have hgrp : ∀ k, inGroup k b = (dedupKey s b.completionYear == k) := by
          intro k
          simp [inGroup, hb, hs]
        simp only [hb, if_neg hs]
        obtain ⟨ih1, ih2, ih3⟩ :=
          ih (acc.1, pushGroup acc.2 (dedupKey s b.completionYear) b)
        refine ⟨?_, ?_, ?_⟩
        · rw [ih1, List.filter_cons, hpass]
          rfl
        · intro k
          rw [ih2 k, lookupG_pushGroup, List.filter_cons, hgrp k]
          by_cases hk : k = dedupKey s b.completionYear
          · rw [if_pos hk, hk]
            rw [show (dedupKey s b.completionYear == dedupKey s b.completionYear)
              = true by simp]
            simp
          · rw [if_neg hk]
            rw [show (dedupKey s b.completionYear == k) = false by
              simp
              exact fun hh => hk hh.symm]
            simp
        · exact fun h => ih3 (pushGroup_WF _ _ _ h)

theorem splitBuildings_fst (bs : List Building) :
    (splitBuildings bs).1 = bs.filter passPred :=
  by simpa using (splitBuildings_go bs ([], [])).1

theorem splitBuildings_lookup (bs : List Building) (k : String) :
    lookupG (splitBuildings bs).2 k = bs.filter (inGroup k) := by
  have h := (splitBuildings_go bs ([], [])).2.1 k
  simpa [lookupG] using h

theorem splitBuildings_WF (bs : List Building) : groupsWF (splitBuildings bs).2 := by
  refine (splitBuildings_go bs ([], [])).2.2 ?_
  exact ⟨List.nodup_nil, by simp⟩

theorem countP_survivors (P : Building → Bool) (K : String) :
    ∀ (gs : List (String × List Building)),
    (keysOf gs).Nodup →
    (∀ kg ∈ gs, kg.2 ≠ []) →
    (∀ kg ∈ gs, ∀ b ∈ kg.2, (P b = true ↔ kg.1 = K)) →
    (gs.filterMap (fun kg => pickBest kg.2)).countP P
      = if K ∈ keysOf gs then 1 else 0 := by
  intro gs
  induction gs with
  | nil => intro _ _ _; simp [keysOf]
  | cons kg t ih =>
    intro hnodup hne hiff
    obtain ⟨k, g⟩ := kg
    obtain ⟨m, hm⟩ := pickBest_isSome (hne (k, g) (List.mem_cons_self _ _))
    have hnd : k ∉ List.map Prod.fst t ∧ (List.map Prod.fst t).Nodup := by
      rw [keysOf, List.map_cons, List.nodup_cons] at hnodup
      exact hnodup
    have hPm := hiff (k, g) (List.mem_cons_self _ _) m (pickBest_mem hm)
    have htail := ih hnd.2
      (fun kg' hkg' => hne kg' (List.mem_cons_of_mem _ hkg'))
      (fun kg' hkg' => hiff kg' (List.mem_cons_of_mem _ hkg'))
    rw [List.filterMap_cons, hm, List.countP_cons]
    by_cases hk : k = K
    · rw [if_pos (hPm.2 hk), htail,
        if_neg (show K ∉ keysOf t by rw [← hk]; exact fun h => hnd.1 h),
        if_pos (show K ∈ keysOf ((k, g) :: t) by
          rw [keysOf, List.map_cons, ← hk]; exact List.mem_cons_self _ _)]
    · have hPf : ¬ P m = true := fun h => hk (hPm.1 h)
      rw [if_neg hPf, htail]
      have hmemiff : K ∈ keysOf ((k, g) :: t) ↔ K ∈ keysOf t := by
        rw [keysOf, List.map_cons]
        simp only [List.mem_cons]
        constructor
        · rintro (h | h)
          · exact absurd h.symm hk
          · exact h
        · exact Or.inr
      by_cases hKt : K ∈ keysOf t
      · rw [if_pos hKt, if_pos (hmemiff.2 hKt)]
      · rw [if_neg hKt, if_neg (fun h => hKt (hmemiff.1 h))]

/-- C1. On inputs satisfying the ConstructionRecord invariant (a present
property identifier is exactly 10 digit characters), the Deduplicator: keeps
every record lacking a property identifier unchanged in the output; emits
only input records; for each `(bbl, year)` key occurring among records with
a present identifier, outputs exactly one record of that key's group; and
that survivor is maximal in its group under the ordered tie-break
(unit count, then overlay presence, then job identifier). -/
theorem deduplicateBuildings_correct (buildings : List Building)
    (hinv : ∀ b ∈ buildings, ∀ s, b.bbl = some s →
        s.length = 10 ∧ ∀ c ∈ s.toList, c.isDigit = true) :
    (∀ b ∈ buildings, b.bbl = none → b ∈ deduplicateBuildings buildings) ∧
    (∀ b ∈ deduplicateBuildings buildings, b ∈ buildings) ∧
    (∀ s y, (∃ b ∈ buildings, b.bbl = some s ∧ b.completionYear = y) →
        (deduplicateBuildings buildings).countP
          (fun b => b.bbl == some s && b.completionYear == y) = 1) ∧
    (∀ b ∈ deduplicateBuildings buildings, ∀ s y, b.bbl = some s →
        b.completionYear = y →
        ∀ b' ∈ buildings, b'.bbl = some s → b'.completionYear = y →
          dedupRank b' ≤ dedupRank b) := by
  have hfst := splitBuildings_fst buildings
  have hlook := splitBuildings_lookup buildings
  have hWF := splitBuildings_WF buildings
  have hout : deduplicateBuildings buildings
      = (splitBuildings buildings).1
        ++ (splitBuildings buildings).2.filterMap (fun kg => pickBest kg.2) := rfl
  have hgrp_eq : ∀ kg ∈ (splitBuildings buildings).2,
      kg.2 = buildings.filter (inGroup kg.1) := by
    intro kg hkg
    have h1 : lookupG (splitBuildings buildings).2 kg.1 = kg.2 :=
      lookupG_of_mem _ kg.1 kg.2 hWF.1 (by simpa using hkg)
    rw [← h1, hlook kg.1]
  have hsub : ∀ b ∈ deduplicateBuildings buildings, b ∈ buildings := by
    intro b hb
    rw [hout] at hb
    rcases List.mem_append.1 hb with hp | hs
    · rw [hfst] at hp
      exact (List.mem_filter.1 hp).1
    · obtain ⟨kg, hkg, hpk⟩ := List.mem_filterMap.1 hs
      have hmem := pickBest_mem hpk
      rw [hgrp_eq kg hkg] at hmem
      exact (List.mem_filter.1 hmem).1
  refine ⟨?_, hsub, ?_, ?_⟩
  · intro b hb hnone
    rw [hout]
    refine List.mem_append_left _ ?_
    rw [hfst]
    exact List.mem_filter.2 ⟨hb, by simp [passPred, hnone]⟩
  · intro s y ⟨b₀, hb₀, hbbl₀, hyear₀⟩
    obtain ⟨hlen10, hdig⟩ := hinv b₀ hb₀ s hbbl₀
    have hsne : s ≠ "" := by
      intro h
      rw [h] at hlen10
      simp at hlen10
    have hP : ∀ b : Building,
        ((fun b : Building => b.bbl == some s && b.completionYear == y) b = true)
          ↔ (b.bbl = some s ∧ b.completionYear = y) := by
      intro b
      simp
    rw [hout, List.countP_append]
    have hpass0 : ((splitBuildings buildings).1).countP
        (fun b => b.bbl == some s && b.completionYear == y) = 0 := by
      rw [List.countP_eq_zero]
      intro b hb
      rw [hfst] at hb
      obtain ⟨-, hpb⟩ := List.mem_filter.1 hb
      intro hPb
      obtain ⟨hb1, -⟩ := (hP b).1 hPb
      rw [passPred, hb1] at hpb
      simp at hpb
      exact hsne hpb
    have hin₀ : inGroup (dedupKey s y) b₀ = true := by
      rw [inGroup, hbbl₀]
      simp [hsne, hyear₀]
    have hKmem : dedupKey s y ∈ keysOf (splitBuildings buildings).2 := by
      by_contra hK
      have h0 := lookupG_not_mem hK
      rw [hlook] at h0
      have : b₀ ∈ buildings.filter (inGroup (dedupKey s y)) :=
        List.mem_filter.2 ⟨hb₀, hin₀⟩
      rw [h0] at this
      cases this
    have hsurv := countP_survivors
      (fun b => b.bbl == some s && b.completionYear == y) (dedupKey s y)
      (splitBuildings buildings).2 hWF.1 hWF.2 ?_
    · rw [hpass0, hsurv, if_pos hKmem]
    · intro kg hkg b hb
      have hbg := hb
      rw [hgrp_eq kg hkg] at hbg
      obtain ⟨hbin, hgin⟩ := List.mem_filter.1 hbg
      rw [inGroup] at hgin
      constructor
      · intro hPb
        obtain ⟨hb1, hb2⟩ := (hP b).1 hPb
        rw [hb1] at hgin
        simp [hsne] at hgin
        rw [← hgin, hb2]
      · intro hkK
        cases hbb : b.bbl with
        | none => rw [hbb] at hgin; cases hgin
        | some sb =>
          rw [hbb] at hgin
          have hsbne : sb ≠ "" := by
            intro h
            rw [h] at hgin
            simp at hgin
          have hkey : dedupKey sb b.completionYear = dedupKey s y := by
            rw [Bool.and_eq_true] at hgin
            have h2 := hgin.2
            rw [beq_iff_eq] at h2
            rw [h2, hkK]
          obtain ⟨hdigb, -⟩ := And.intro (hinv b hbin sb hbb).2 trivial
          obtain ⟨rfl, rfl⟩ := dedupKey_inj sb s b.completionYear y hdigb hdig hkey
          exact (hP b).2 ⟨hbb, rfl⟩
  · intro b hb s y hbbl hyear b' hb' hbbl' hyear'
    obtain ⟨hlen10, hdig⟩ := hinv b (hsub b hb) s hbbl
    have hsne : s ≠ "" := by
      intro h
      rw [h] at hlen10
      simp at hlen10
    rw [hout] at hb
    rcases List.mem_append.1 hb with hp | hsv
    · rw [hfst] at hp
      obtain ⟨-, hpb⟩ := List.mem_filter.1 hp
      rw [passPred, hbbl] at hpb
      simp at hpb
      exact absurd hpb hsne
    · obtain ⟨kg, hkg, hpk⟩ := List.mem_filterMap.1 hsv
      have hmem := pickBest_mem hpk
      have hbg := hmem
      rw [hgrp_eq kg hkg] at hbg
      obtain ⟨-, hgin⟩ := List.mem_filter.1 hbg
      rw [inGroup, hbbl] at hgin
      have hk1 : dedupKey s b.completionYear = kg.1 := by
        rw [Bool.and_eq_true] at hgin
        have h2 := hgin.2
        rw [beq_iff_eq] at h2
        exact h2
      have hb'in : b' ∈ kg.2 := by
        rw [hgrp_eq kg hkg]
        refine List.mem_filter.2 ⟨hb', ?_⟩
        rw [inGroup, hbbl']
        simp only [hsne, Bool.and_eq_true, beq_iff_eq]
        refine ⟨by simp [hsne], ?_⟩
        rw [hyear', ← hyear]
        exact hk1
      exact pickBest_max hpk b' hb'in

/-- A concrete construction record for exercising the deduplicator: BBL
`1000123456`, completed 2020, 40 units, no overlay. -/
def dedupWitnessA : Building :=
  { jobNumber := "J1"
    jobType := "New Building"
    bbl := some "1000123456"
    borough := "Manhattan"
    address := "1 Main St"
    longitude := 0
    latitude := 0
    completionYear := 2020
    totalUnits := 40
    classANet := 40
    unitsCO := 0
    buildingClass := none
    buildingType := "multifamily-walkup"
    physicalBuildingType := "multifamily-walkup"
    affordableUnits := 0
    affordablePercentage := 0
    extremeLowIncomeUnits := 0
    veryLowIncomeUnits := 0
    lowIncomeUnits := 0
    moderateIncomeUnits := 0
    middleIncomeUnits := 0
    otherIncomeUnits := 0
    studioUnits := 0
    oneBrUnits := 0
    twoBrUnits := 0
    threeBrUnits := 0
    fourBrUnits := 0
    fiveBrUnits := 0
    sixBrUnits := 0
    unknownBrUnits := 40
    dataSource := "dcp"
    hasAffordableOverlay := false
    housingNyProjectId := none
    housingNyProjectName := none
    housingNyConstructionType := none
    housingNyExtendedAffordabilityOnly := false }

/-- A duplicate of the same BBL and year with more units and an overlay. -/
def dedupWitnessB : Building :=
  { dedupWitnessA with
    jobNumber := "J2"
    totalUnits := 45
    hasAffordableOverlay := true }

/-- A record lacking a property identifier. -/
def dedupWitnessC : Building :=
  { dedupWitnessA with
    jobNumber := "J3"
    bbl := none }

/-- C1 witness: the theorem applied to a concrete three-record input — one
survivor for the shared `(1000123456, 2020)` key and pass-through of the
identifier-less record. -/
theorem deduplicateBuildings_correct_witness :
    (deduplicateBuildings [dedupWitnessA, dedupWitnessB, dedupWitnessC]).countP
        (fun b => b.bbl == some "1000123456" && b.completionYear == 2020) = 1 ∧
    dedupWitnessC ∈ deduplicateBuildings [dedupWitnessA, dedupWitnessB, dedupWitnessC] := by
  have hchar : ("1000123456" : String).length = 10 ∧
      ∀ c ∈ ("1000123456" : String).toList, c.isDigit = true := by
    constructor
    · decide
    · decide
  have hinv : ∀ b ∈ [dedupWitnessA, dedupWitnessB, dedupWitnessC], ∀ s,
      b.bbl = some s → s.length = 10 ∧ ∀ c ∈ s.toList, c.isDigit = true := by
    intro b hb s hs
    rcases List.mem_cons.1 hb with rfl | hb2
    · rw [show dedupWitnessA.bbl = some "1000123456" from rfl] at hs
      injection hs with hs
      rw [← hs]
      exact hchar
    · rcases List.mem_cons.1 hb2 with rfl | hb3
      · rw [show dedupWitnessB.bbl = some "1000123456" from rfl] at hs
        injection hs with hs
        rw [← hs]
        exact hchar
      · rcases List.mem_cons.1 hb3 with rfl | hb4
        · rw [show dedupWitnessC.bbl = none from rfl] at hs
          cases hs
        · cases hb4
  have h := deduplicateBuildings_correct _ hinv
  refine ⟨h.2.2.1 "1000123456" 2020
      ⟨dedupWitnessA, List.mem_cons_self _ _, rfl, rfl⟩, ?_⟩
  exact h.1 dedupWitnessC
    (List.mem_cons_of_mem _ (List.mem_cons_of_mem _ (List.mem_cons_self _ _))) rfl
